import Mathlib

/-!
Verification of the cursor-based pagination service in
src/cursorBasedPagination.js.

The JavaScript source is shallowly embedded below.  Strings are modelled
as Lean `String`/`List Char` (the cursor payload is ASCII, so UTF-8 bytes
coincide with character codes); JS `Date` values are modelled by their
civil components (`DateC`), ordered lexicographically, which agrees with
the millisecond order on valid dates; MongoDB ObjectIds are modelled by
their 24-character hex string, ordered by byte value (hex-digit value
order).  `Buffer.from(-, 'base64')` is modelled by a strict RFC 4648
decoder; every token used in the development is clean base64, where Node
behaves identically.  `new Date(string)` is modelled on the canonical
ISO-8601 shape `YYYY-MM-DDTHH:MM:SS.sssZ` that `Date.prototype.toISOString`
emits (the only shape the codec produces).
-/

namespace CursorPagination

/-! ### Digit characters -/

/-- Numeric value of an ASCII decimal digit, `none` otherwise. -/
def digitVal? (c : Char) : Option Nat :=
  if 48 ≤ c.toNat ∧ c.toNat ≤ 57 then some (c.toNat - 48) else none

/-- ASCII digit character for `n % 10`. -/
def digitChar (n : Nat) : Char := Char.ofNat (48 + n % 10)

/-- Two-digit zero-padded decimal rendering (as `toISOString` uses). -/
def pad2 (n : Nat) : List Char := [digitChar (n / 10), digitChar n]

/-- Three-digit zero-padded decimal rendering (milliseconds field). -/
def pad3 (n : Nat) : List Char := [digitChar (n / 100), digitChar (n / 10), digitChar n]

/-- Four-digit zero-padded decimal rendering (year field). -/
def pad4 (n : Nat) : List Char :=
  [digitChar (n / 1000), digitChar (n / 100), digitChar (n / 10), digitChar n]

/-! ### Base64 (RFC 4648), modelling Buffer.from/toString with the base64 encoding -/

/-- The base64 alphabet. -/
def b64Alphabet : List Char :=
  ['A','B','C','D','E','F','G','H','I','J','K','L','M',
   'N','O','P','Q','R','S','T','U','V','W','X','Y','Z',
   'a','b','c','d','e','f','g','h','i','j','k','l','m',
   'n','o','p','q','r','s','t','u','v','w','x','y','z',
   '0','1','2','3','4','5','6','7','8','9','+','/']

/-- Character for a 6-bit group. -/
def b64Char (n : Nat) : Char := b64Alphabet.getD n '='

/-- Position of a character in the base64 alphabet. -/
def b64IndexAux (c : Char) : List Char → Nat → Option Nat
  | [], _ => none
  | a :: rest, k => if a = c then some k else b64IndexAux c rest (k + 1)

/-- Index of a base64 alphabet character, `none` for characters outside it. -/
def b64Index (c : Char) : Option Nat := b64IndexAux c b64Alphabet 0

/-- Base64-encode a byte list (the `Buffer.prototype.toString('base64')` output). -/
def b64EncodeBytes : List Nat → List Char
  | [] => []
  | [a] => [b64Char (a / 4), b64Char (a % 4 * 16), '=', '=']
  | [a, b] => [b64Char (a / 4), b64Char (a % 4 * 16 + b / 16), b64Char (b % 16 * 4), '=']
  | a :: b :: c :: rest =>
    b64Char (a / 4) :: b64Char (a % 4 * 16 + b / 16) ::
      b64Char (b % 16 * 4 + c / 64) :: b64Char (c % 64) :: b64EncodeBytes rest

/-- Base64-decode a character list (the `Buffer.from(s, 'base64')` input path):
groups of four characters, with `=` padding allowed only in the final group. -/
def b64DecodeChars : List Char → Option (List Nat)
  | [] => some []
  | w :: x :: y :: z :: rest =>
    if z = '=' then
      if rest = [] then
        if y = '=' then do
          let a ← b64Index w
          let b ← b64Index x
          some [a * 4 + b / 16]
        else do
          let a ← b64Index w
          let b ← b64Index x
          let c ← b64Index y
          some [a * 4 + b / 16, b % 16 * 16 + c / 4]
      else none
    else do
      let a ← b64Index w
      let b ← b64Index x
      let c ← b64Index y
      let d ← b64Index z
      let tail ← b64DecodeChars rest
      some ((a * 4 + b / 16) :: (b % 16 * 16 + c / 4) :: (c % 4 * 64 + d) :: tail)
  | _ => none

/-! ### Dates: JS Date values as civil components -/

/-- Leap-year test of the Gregorian calendar. -/
def isLeapYear (y : Nat) : Bool := y % 4 == 0 && (y % 100 != 0 || y % 400 == 0)

/-- Number of days in a month. -/
def daysInMonth (y m : Nat) : Nat :=
  if m = 2 then (if isLeapYear y then 29 else 28)
  else if m = 4 ∨ m = 6 ∨ m = 9 ∨ m = 11 then 30 else 31

/-- A JS `Date` value, represented by its UTC civil components. -/
structure DateC where
  year : Nat
  month : Nat
  day : Nat
  hour : Nat
  minute : Nat
  second : Nat
  ms : Nat
deriving DecidableEq

/-- Runtime validity of date components (the tests `new Date(s)` performs on the
canonical ISO shape before yielding a non-NaN time value). -/
def isValidDateB (d : DateC) : Bool :=
  d.year ≤ 9999 && 1 ≤ d.month && d.month ≤ 12 &&
    1 ≤ d.day && d.day ≤ daysInMonth d.year d.month &&
    d.hour ≤ 23 && d.minute ≤ 59 && d.second ≤ 59 && d.ms ≤ 999

/-- A valid timestamp: civil components in range (and a four-digit year, the
range `toISOString` renders without an expanded year sign). -/
def ValidDate (d : DateC) : Prop := isValidDateB d = true

instance (d : DateC) : Decidable (ValidDate d) := by
  unfold ValidDate; infer_instance

/-- The `toISOString` rendering `YYYY-MM-DDTHH:MM:SS.sssZ` of a date. -/
def isoChars (d : DateC) : List Char :=
  pad4 d.year ++ '-' :: pad2 d.month ++ '-' :: pad2 d.day ++ 'T' :: pad2 d.hour ++
    ':' :: pad2 d.minute ++ ':' :: pad2 d.second ++ '.' :: pad3 d.ms ++ ['Z']

/-- Parse two decimal digits. -/
def parse2 (a b : Char) : Option Nat := do
  let x ← digitVal? a
  let y ← digitVal? b
  pure (10 * x + y)

/-- Parse three decimal digits. -/
def parse3 (a b c : Char) : Option Nat := do
  let x ← digitVal? a
  let y ← digitVal? b
  let z ← digitVal? c
  pure (100 * x + 10 * y + z)

/-- Parse four decimal digits. -/
def parse4 (a b c d : Char) : Option Nat := do
  let x ← digitVal? a
  let y ← digitVal? b
  let z ← digitVal? c
  let w ← digitVal? d
  pure (1000 * x + 100 * y + 10 * z + w)

/-- Modelling `new Date(s)` followed by the `isNaN(date.getTime())` test, on the
canonical ISO-8601 shape the codec emits: `none` is Invalid Date. -/
def parseIso (l : List Char) : Option DateC :=
  match l with
  | [y1, y2, y3, y4, '-', m1, m2, '-', d1, d2, 'T', h1, h2, ':', n1, n2, ':',
     s1, s2, '.', f1, f2, f3, 'Z'] => do
    let y ← parse4 y1 y2 y3 y4
    let mo ← parse2 m1 m2
    let dy ← parse2 d1 d2
    let h ← parse2 h1 h2
    let mi ← parse2 n1 n2
    let se ← parse2 s1 s2
    let f ← parse3 f1 f2 f3
    let dt : DateC := ⟨y, mo, dy, h, mi, se, f⟩
    if isValidDateB dt then some dt else none
  | _ => none

/-! ### ObjectIds -/

/-- ASCII hex digit (either case), as in the ObjectId validity pattern. -/
def isHexDigit (c : Char) : Bool :=
  (48 ≤ c.toNat && c.toNat ≤ 57) || (97 ≤ c.toNat && c.toNat ≤ 102) ||
    (65 ≤ c.toNat && c.toNat ≤ 70)

/-- Lowercase ASCII hex digit (the canonical ObjectId string alphabet). -/
def isLowerHexDigit (c : Char) : Bool :=
  (48 ≤ c.toNat && c.toNat ≤ 57) || (97 ≤ c.toNat && c.toNat ≤ 102)

/-- Modelling `mongoose.Types.ObjectId.isValid` on strings: a 24-character hex
string, or any 12-character string (interpreted as 12 raw bytes). -/
def isValidObjectId (s : String) : Bool :=
  s.toList.length == 12 || (s.toList.length == 24 && s.toList.all isHexDigit)

/-- A canonical storage identifier: the lowercase 24-hex-digit form in which
MongoDB stringifies an ObjectId. -/
def ValidOid (s : String) : Prop :=
  s.toList.length = 24 ∧ ∀ c ∈ s.toList, isLowerHexDigit c = true

instance (s : String) : Decidable (ValidOid s) := by
  unfold ValidOid; infer_instance

/-! ### The cursor codec (encodeCursor / decodeCursor) -/

/-- Split a character list at every occurrence of `sep`, JS `String.prototype.split`
style (the empty list yields one empty field). -/
def splitOnChar (sep : Char) : List Char → List (List Char)
  | [] => [[]]
  | c :: rest =>
    let r := splitOnChar sep rest
    if c = sep then [] :: r
    else
      match r with
      | h :: t => (c :: h) :: t
      | [] => [[c]]

/-- encodeCursor: base64 of `createdAt.toISOString() + "|" + id`.  Source lines 56-59. -/
def encodeCursor (createdAt : DateC) (id : String) : String :=
  String.mk (b64EncodeBytes ((isoChars createdAt ++ '|' :: id.toList).map Char.toNat))

/-- The body of decodeCursor's try block, with the three distinct internal
error messages.  Source lines 62-79. -/
def decodeCursorInner (cursor : String) : Except String (DateC × String) :=
  match b64DecodeChars cursor.toList with
  | none => Except.error "Invalid base64"
  | some bytes =>
    let decoded : List Char := bytes.map Char.ofNat
    let parts := splitOnChar '|' decoded
    let createdAtPart := parts.getD 0 []
    let idPart := parts.getD 1 []
    if createdAtPart.isEmpty || idPart.isEmpty then
      Except.error "Invalid cursor format"
    else
      match parseIso createdAtPart with
      | none => Except.error "Invalid date in cursor"
      | some date =>
        if isValidObjectId (String.mk idPart) then Except.ok (date, String.mk idPart)
        else Except.error "Invalid ObjectId in cursor"

/-- decodeCursor: the try/catch wrapper collapses every internal failure to the
single `Malformed cursor` error.  Source lines 61-83. -/
def decodeCursor (cursor : String) : Except String (DateC × String) :=
  match decodeCursorInner cursor with
  | Except.ok v => Except.ok v
  | Except.error _ => Except.error "Malformed cursor"

/-! ### Data model (models/Post.js) -/

/-- The denormalized author snapshot stored on each post. -/
structure Author where
  id : String
  username : String
  displayName : String
  avatar : Option String
deriving DecidableEq

/-- A stored post document. -/
structure Post where
  id : String
  content : String
  user : Author
  likesCount : Nat
  likesUserIds : List String
  createdAt : DateC
  isDeleted : Bool
deriving DecidableEq

/-! ### Orderings

MongoDB compares `Date` values by their time value and ObjectIds bytewise.
Both are lexicographic comparisons of small integer sequences: the civil
components for dates, the hex-digit values for ids.  `listLt` is that shared
strict lexicographic order. -/

/-- Strict lexicographic order on integer sequences. -/
def listLt : List Nat → List Nat → Bool
  | [], [] => false
  | [], _ :: _ => true
  | _ :: _, [] => false
  | a :: as, b :: bs => if a < b then true else if b < a then false else listLt as bs

/-- Value of a hex digit character (0 for other characters). -/
def hexVal (c : Char) : Nat :=
  if 48 ≤ c.toNat ∧ c.toNat ≤ 57 then c.toNat - 48
  else if 97 ≤ c.toNat ∧ c.toNat ≤ 102 then c.toNat - 87
  else if 65 ≤ c.toNat ∧ c.toNat ≤ 70 then c.toNat - 55
  else 0

/-- Comparison key of a date: its civil components, most significant first. -/
def dateKey (d : DateC) : List Nat := [d.year, d.month, d.day, d.hour, d.minute, d.second, d.ms]

/-- Comparison key of an ObjectId string: its hex-digit values (byte order). -/
def oidKey (s : String) : List Nat := s.toList.map hexVal

/-- JS/MongoDB `createdAt < c` comparison on dates. -/
def dateLtB (a b : DateC) : Bool := listLt (dateKey a) (dateKey b)

/-- MongoDB `_id < i` comparison on ObjectIds. -/
def oidLtB (a b : String) : Bool := listLt (oidKey a) (oidKey b)

/-- Full compound sort key of a post: `(createdAt, id)`, flattened (the date key
has fixed length 7, so lexicographic order on the concatenation is exactly the
pair order). -/
def postKey (p : Post) : List Nat := dateKey p.createdAt ++ oidKey p.id

/-- a sorts strictly before b under `.sort({ createdAt: -1, _id: -1 })`:
descending order on the compound key. -/
def postBefore (a b : Post) : Bool := listLt (postKey b) (postKey a)

/-! ### The sorted-query capability -/

/-- Insert a post into a list sorted by `postBefore`. -/
def insertPost (p : Post) : List Post → List Post
  | [] => [p]
  | q :: qs => if postBefore p q then p :: q :: qs else q :: insertPost p qs

/-- The collection ordered by `.sort({ createdAt: -1, _id: -1 })`. -/
def sortPosts (l : List Post) : List Post := l.foldr insertPost []

/-- The keyset condition `createdAt < c OR (createdAt = c AND _id < i)` added
to the query when a decoded cursor position is present.  Source lines 99-105. -/
def postAfter (pos : DateC × String) (p : Post) : Bool :=
  dateLtB p.createdAt pos.1 || (decide (p.createdAt = pos.1) && oidLtB p.id pos.2)

/-- The whole query predicate: `{ isDeleted: false }` plus, when present, the
keyset `$or` condition.  Source lines 91-105. -/
def matchesQuery (cur : Option (DateC × String)) (p : Post) : Bool :=
  !p.isDeleted &&
    (match cur with
     | none => true
     | some pos => postAfter pos p)

/-- Mongo `.limit(k)` semantics: 0 means no limit, a negative value acts as a
single batch capped at its magnitude. -/
def mongoLimit (k : Int) (l : List Post) : List Post :=
  if k = 0 then l else l.take k.natAbs

/-! ### The page resolver (GET /api/posts) -/

/-- The public author shape echoed in responses. -/
structure PublicUser where
  id : String
  username : String
  displayName : String
  avatar : Option String
deriving DecidableEq

/-- The transformed post shape in responses: id, content, author snapshot,
like count, createdAt — and nothing else.  Source lines 132-146. -/
structure PublicPost where
  id : String
  content : String
  user : PublicUser
  likesCount : Nat
  createdAt : DateC
deriving DecidableEq

/-- The pagination metadata object. -/
structure Pagination where
  nextCursor : Option String
  hasMore : Bool
  limit : Int
  count : Nat
deriving DecidableEq

/-- The 200 response body. -/
structure PageResponse where
  posts : List PublicPost
  pagination : Pagination
deriving DecidableEq

/-- Outcome of one GET /api/posts request. -/
inductive GetPostsResult where
  | ok (r : PageResponse)
  | badRequest (error : String) (message : String)
deriving DecidableEq

/-- The response projection of a post (source lines 132-146): the
`likes.userIds` field is not copied. -/
def transformPost (p : Post) : PublicPost :=
  { id := p.id
    content := p.content
    user := { id := p.user.id
              username := p.user.username
              displayName := p.user.displayName
              avatar := p.user.avatar }
    likesCount := p.likesCount
    createdAt := p.createdAt }

/-- A post with its liker-id set forgotten and every other field kept, used to
state that responses depend on a store only through this view. -/
def scrubLikes (p : Post) : Post :=
  { p with likesUserIds := [] }

/-- The core page resolution (source lines 114-156): fetch `limit + 1` matching
records in compound descending order, detect continuation, truncate, derive the
next cursor from the last retained record, project. -/
def resolvePage (store : List Post) (cur : Option (DateC × String)) (limit : Int) :
    PageResponse :=
  let queried := mongoLimit (limit + 1) ((sortPosts store).filter (matchesQuery cur))
  let hasMore := decide ((queried.length : Int) > limit)
  let slicedPosts := if hasMore then queried.dropLast else queried
  let nextCursor : Option String :=
    if hasMore && decide (0 < slicedPosts.length) then
      slicedPosts.getLast?.map (fun p => encodeCursor p.createdAt p.id)
    else none
  let transformedPosts := slicedPosts.map transformPost
  { posts := transformedPosts
    pagination :=
      { nextCursor := nextCursor
        hasMore := hasMore
        limit := limit
        count := transformedPosts.length } }

/-! ### Query-string handling -/

/-- JS `parseInt` on the optional `limit` query value: `none` is NaN. -/
def parseIntJS : Option String → Option Int
  | none => none
  | some s =>
    match s.toList with
    | '-' :: rest => (leadingNat rest).map (fun n => -(n : Int))
    | '+' :: rest => (leadingNat rest).map (fun n => (n : Int))
    | l => (leadingNat l).map (fun n => (n : Int))
where
  /-- Maximal run of leading decimal digits, `none` when there is none. -/
  leadingNat (l : List Char) : Option Nat :=
    let ds := l.takeWhile fun c => decide (48 ≤ c.toNat ∧ c.toNat ≤ 57)
    if ds.isEmpty then none
    else some (ds.foldl (fun a c => 10 * a + (c.toNat - 48)) 0)

/-- The effective limit `Math.min(parseInt(req.query.limit) || 10, 50)`
(source line 88): NaN and 0 are falsy, so both fall back to the default 10. -/
def effectiveLimit (limQ : Option String) : Int :=
  let p : Int :=
    match parseIntJS limQ with
    | none => 10
    | some n => if n = 0 then 10 else n
  min p 50

/-- Cursor handling of the route (source lines 89-112): an absent or empty
`after` value is falsy and means no cursor; otherwise the token is decoded,
and a decode failure short-circuits. -/
def decodedCursorOf : Option String → Except String (Option (DateC × String))
  | none => Except.ok none
  | some s =>
    if s = "" then Except.ok none
    else
      match decodeCursor s with
      | Except.ok v => Except.ok (some v)
      | Except.error e => Except.error e

/-- The GET /api/posts handler (source lines 86-156): clamp the limit, decode
the cursor (400 on failure, before any query is issued), resolve the page. -/
def handleGetPosts (store : List Post) (limQ afterQ : Option String) : GetPostsResult :=
  match decodedCursorOf afterQ with
  | Except.error e => GetPostsResult.badRequest "Invalid cursor" e
  | Except.ok cur => GetPostsResult.ok (resolvePage store cur (effectiveLimit limQ))

/-! ### Sample data used by the concrete witnesses -/

/-- Lowercase hex digit character for a value below 16. -/
def hexChar (n : Nat) : Char := if n < 10 then Char.ofNat (48 + n) else Char.ofNat (87 + n)

/-- A canonical ObjectId string determined by a small number. -/
def sampleOid (k : Nat) : String :=
  String.mk (List.replicate 22 '0' ++ [hexChar (k / 16 % 16), hexChar (k % 16)])

/-- A fixed author snapshot. -/
def sampleAuthor : Author :=
  { id := "507f1f77bcf86cd799439011", username := "alice", displayName := "Alice", avatar := none }

/-- A post whose creation second and id are determined by `k`. -/
def samplePost (k : Nat) : Post :=
  { id := sampleOid k
    content := "hello world"
    user := sampleAuthor
    likesCount := k
    likesUserIds := []
    createdAt := ⟨2024, 1, 15, 12, 30, k % 60, 0⟩
    isDeleted := false }

/-- Twenty-five posts with strictly increasing `createdAt`. -/
def sampleStore25 : List Post := (List.range 25).map samplePost

/-- Three posts sharing one `createdAt` with distinct ids. -/
def sampleStore3 : List Post :=
  [{ samplePost 1 with createdAt := ⟨2024, 1, 15, 12, 30, 0, 0⟩ },
   { samplePost 2 with createdAt := ⟨2024, 1, 15, 12, 30, 0, 0⟩ },
   { samplePost 3 with createdAt := ⟨2024, 1, 15, 12, 30, 0, 0⟩ }]

/-! ## Lemmas about the lexicographic order -/

theorem listLt_irrefl : ∀ l : List Nat, listLt l l = false
  | [] => rfl
  | a :: as => by
    unfold listLt
    rw [if_neg (Nat.lt_irrefl a), if_neg (Nat.lt_irrefl a)]
    exact listLt_irrefl as

theorem listLt_asymm : ∀ {a b : List Nat}, listLt a b = true → listLt b a = false
  | [], [], h => by simp [listLt] at h
  | [], _ :: _, _ => rfl
  | _ :: _, [], h => by simp [listLt] at h
  | a :: as, b :: bs, h => by
    unfold listLt at h ⊢
    by_cases hab : a < b
    · rw [if_neg (by omega : ¬ b < a), if_pos hab]
    · by_cases hba : b < a
      · rw [if_neg hab, if_pos hba] at h
        exact absurd h (by simp)
      · have hab' : a = b := by omega
        subst hab'
        rw [if_neg hab, if_neg hba] at h ⊢
        exact listLt_asymm h

theorem listLt_trans : ∀ {a b c : List Nat},
    listLt a b = true → listLt b c = true → listLt a c = true
  | [], [], _, h1, _ => by simp [listLt] at h1
  | [], _ :: _, [], _, h2 => by simp [listLt] at h2
  | [], _ :: _, _ :: _, _, _ => rfl
  | _ :: _, [], _, h1, _ => by simp [listLt] at h1
  | _ :: _, _ :: _, [], _, h2 => by simp [listLt] at h2
  | a :: as, b :: bs, c :: cs, h1, h2 => by
    unfold listLt at h1 h2 ⊢
    by_cases hab : a < b
    · by_cases hbc : b < c
      · rw [if_pos (by omega : a < c)]
      · by_cases hcb : c < b
        · rw [if_neg hbc, if_pos hcb] at h2
          exact absurd h2 (by simp)
        · have : b = c := by omega
          subst this
          rw [if_pos hab]
    · by_cases hba : b < a
      · rw [if_neg hab, if_pos hba] at h1
        exact absurd h1 (by simp)
      · have : a = b := by omega
        subst this
        rw [if_neg hab, if_neg hba] at h1
        by_cases hbc : a < c
        · rw [if_pos hbc]
        · by_cases hcb : c < a
          · rw [if_neg hbc, if_pos hcb] at h2
            exact absurd h2 (by simp)
          · have : a = c := by omega
            subst this
            rw [if_neg hbc, if_neg hbc] at h2 ⊢
            exact listLt_trans h1 h2

theorem listLt_connex : ∀ {a b : List Nat},
    listLt a b = false → listLt b a = false → a = b
  | [], [], _, _ => rfl
  | [], _ :: _, h1, _ => by simp [listLt] at h1
  | _ :: _, [], _, h2 => by simp [listLt] at h2
  | a :: as, b :: bs, h1, h2 => by
    unfold listLt at h1 h2
    by_cases hab : a < b
    · rw [if_pos hab] at h1
      exact absurd h1 (by simp)
    · by_cases hba : b < a
      · rw [if_pos hba] at h2
        exact absurd h2 (by simp)
      · have : a = b := by omega
        subst this
        rw [if_neg hab, if_neg hab] at h1 h2
        rw [listLt_connex h1 h2]

theorem listLt_append : ∀ {a b x y : List Nat}, a.length = b.length →
    listLt (a ++ x) (b ++ y) = (listLt a b || (decide (a = b) && listLt x y))
  | [], [], x, y, _ => by simp [listLt]
  | [], _ :: _, _, _, h => by simp at h
  | _ :: _, [], _, _, h => by simp at h
  | a :: as, b :: bs, x, y, h => by
    have h' : as.length = bs.length := by simpa using h
    by_cases hab : a < b
    · show (if a < b then true else _) = _
      rw [if_pos hab]
      have hne : ¬ (a :: as = b :: bs) := by simp; intro hc; omega
      show true = (listLt (a :: as) (b :: bs) || _)
      unfold listLt
      rw [if_pos hab]
      simp
    · by_cases hba : b < a
      · show (if a < b then true else if b < a then false else _) = _
        rw [if_neg hab, if_pos hba]
        have hne : decide (a :: as = b :: bs) = false := by
          simp
          intro hc
          omega
        show false = (listLt (a :: as) (b :: bs) || _)
        unfold listLt
        rw [if_neg hab, if_pos hba, hne]
        simp
      · have : a = b := by omega
        subst this
        show (if a < a then true else if a < a then false else listLt (as ++ x) (bs ++ y)) = _
        rw [if_neg (Nat.lt_irrefl a), if_neg (Nat.lt_irrefl a)]
        rw [listLt_append h']
        have e1 : listLt (a :: as) (a :: bs) = listLt as bs := by
          show (if a < a then true else if a < a then false else listLt as bs) = listLt as bs
          rw [if_neg (Nat.lt_irrefl a), if_neg (Nat.lt_irrefl a)]
        have e2 : decide (a :: as = a :: bs) = decide (as = bs) := by
          simp
        rw [e1, e2]

/-! ## Digit and character lemmas -/

theorem toNat_digitChar (n : Nat) : (digitChar n).toNat = 48 + n % 10 := by
  unfold digitChar
  have h : n % 10 < 10 := Nat.mod_lt _ (by omega)
  generalize n % 10 = k at *
  interval_cases k <;> rfl

theorem digitVal?_digitChar (n : Nat) : digitVal? (digitChar n) = some (n % 10) := by
  unfold digitVal?
  rw [toNat_digitChar, if_pos (by omega)]
  congr 1
  omega

theorem parse2_pad (n : Nat) : parse2 (digitChar (n / 10)) (digitChar n) = some (n % 100) := by
  simp only [parse2, digitVal?_digitChar, Option.bind_eq_bind, Option.some_bind, pure]
  congr 1
  omega

theorem parse3_pad (n : Nat) :
    parse3 (digitChar (n / 100)) (digitChar (n / 10)) (digitChar n) = some (n % 1000) := by
  simp only [parse3, digitVal?_digitChar, Option.bind_eq_bind, Option.some_bind, pure]
  congr 1
  omega

theorem parse4_pad (n : Nat) :
    parse4 (digitChar (n / 1000)) (digitChar (n / 100)) (digitChar (n / 10)) (digitChar n) =
      some (n % 10000) := by
  simp only [parse4, digitVal?_digitChar, Option.bind_eq_bind, Option.some_bind, pure]
  congr 1
  omega

/-! ## Base64 lemmas -/

theorem b64Index_b64Char : ∀ k < 64, b64Index (b64Char k) = some k := by decide

theorem b64Char_ne_pad : ∀ k < 64, b64Char k ≠ '=' := by decide

theorem b64_roundtrip : ∀ l : List Nat, (∀ x ∈ l, x < 256) →
    b64DecodeChars (b64EncodeBytes l) = some l
  | [], _ => rfl
  | [a], h => by
    have ha : a < 256 := h a (by simp)
    show b64DecodeChars [b64Char (a / 4), b64Char (a % 4 * 16), '=', '='] = some [a]
    unfold b64DecodeChars
    rw [if_pos rfl, if_pos rfl, if_pos rfl]
    rw [b64Index_b64Char (a / 4) (by omega), b64Index_b64Char (a % 4 * 16) (by omega)]
    simp only [Option.bind_eq_bind, Option.some_bind]
    have g1 : a / 4 * 4 + a % 4 * 16 / 16 = a := by omega
    rw [g1]
  | [a, b], h => by
    have ha : a < 256 := h a (by simp)
    have hb : b < 256 := h b (by simp)
    show b64DecodeChars
        [b64Char (a / 4), b64Char (a % 4 * 16 + b / 16), b64Char (b % 16 * 4), '='] = some [a, b]
    unfold b64DecodeChars
    rw [if_pos rfl, if_pos rfl,
      if_neg (b64Char_ne_pad (b % 16 * 4) (by omega))]
    rw [b64Index_b64Char (a / 4) (by omega), b64Index_b64Char (a % 4 * 16 + b / 16) (by omega),
      b64Index_b64Char (b % 16 * 4) (by omega)]
    simp only [Option.bind_eq_bind, Option.some_bind]
    have g1 : a / 4 * 4 + (a % 4 * 16 + b / 16) / 16 = a := by omega
    have g2 : (a % 4 * 16 + b / 16) % 16 * 16 + b % 16 * 4 / 4 = b := by omega
    rw [g1, g2]
  | a :: b :: c :: rest, h => by
    have ha : a < 256 := h a (by simp)
    have hb : b < 256 := h b (by simp)
    have hc : c < 256 := h c (by simp)
    have ih := b64_roundtrip rest (fun x hx => h x (by simp [hx]))
    show b64DecodeChars
        (b64Char (a / 4) :: b64Char (a % 4 * 16 + b / 16) ::
          b64Char (b % 16 * 4 + c / 64) :: b64Char (c % 64) ::
          b64EncodeBytes rest) = some (a :: b :: c :: rest)
    unfold b64DecodeChars
    rw [if_neg (b64Char_ne_pad (c % 64) (by omega))]
    rw [b64Index_b64Char (a / 4) (by omega), b64Index_b64Char (a % 4 * 16 + b / 16) (by omega),
      b64Index_b64Char (b % 16 * 4 + c / 64) (by omega), b64Index_b64Char (c % 64) (by omega)]
    rw [ih]
    simp only [Option.bind_eq_bind, Option.some_bind]
    have g1 : a / 4 * 4 + (a % 4 * 16 + b / 16) / 16 = a := by omega
    have g2 : (a % 4 * 16 + b / 16) % 16 * 16 + (b % 16 * 4 + c / 64) / 4 = b := by omega
    have g3 : (b % 16 * 4 + c / 64) % 4 * 64 + c % 64 = c := by omega
    rw [g1, g2, g3]

/-! ## ISO rendering and parsing -/

theorem toList_mk (l : List Char) : (String.mk l).toList = l := rfl

theorem mk_toList (s : String) : String.mk s.toList = s := rfl

theorem isoChars_eq (d : DateC) : isoChars d =
    [digitChar (d.year / 1000), digitChar (d.year / 100), digitChar (d.year / 10),
     digitChar d.year,
     '-', digitChar (d.month / 10), digitChar d.month,
     '-', digitChar (d.day / 10), digitChar d.day,
     'T', digitChar (d.hour / 10), digitChar d.hour,
     ':', digitChar (d.minute / 10), digitChar d.minute,
     ':', digitChar (d.second / 10), digitChar d.second,
     '.', digitChar (d.ms / 100), digitChar (d.ms / 10), digitChar d.ms,
     'Z'] := by
  simp [isoChars, pad4, pad3, pad2]

theorem daysInMonth_le (y m : Nat) : daysInMonth y m ≤ 31 := by
  unfold daysInMonth
  split
  · split <;> omega
  · split <;> omega

theorem parseIso_isoChars (d : DateC) (hd : ValidDate d) : parseIso (isoChars d) = some d := by
  have hv := hd
  unfold ValidDate isValidDateB at hv
  simp only [Bool.and_eq_true, decide_eq_true_eq] at hv
  obtain ⟨y, mo, dy, h, mi, se, f⟩ := d
  dsimp only at hv
  rw [isoChars_eq]
  dsimp only
  simp only [parseIso, parse4_pad, parse2_pad, parse3_pad, Option.bind_eq_bind, Option.some_bind]
  have hdm : daysInMonth y mo ≤ 31 := daysInMonth_le y mo
  have e1 : y % 10000 = y := by omega
  have e2 : mo % 100 = mo := by omega
  have e3 : dy % 100 = dy := by omega
  have e4 : h % 100 = h := by omega
  have e5 : mi % 100 = mi := by omega
  have e6 : se % 100 = se := by omega
  have e7 : f % 1000 = f := by omega
  rw [e1, e2, e3, e4, e5, e6, e7]
  have hd' : isValidDateB ⟨y, mo, dy, h, mi, se, f⟩ = true := hd
  rw [if_pos hd']

/-! ## ASCII facts about the cursor payload -/

theorem mem_isoChars_ascii (d : DateC) : ∀ c ∈ isoChars d, c.toNat < 128 ∧ c.toNat ≠ 124 := by
  rw [isoChars_eq]
  intro c hc
  simp only [List.mem_cons, List.not_mem_nil, or_false] at hc
  rcases hc with rfl | rfl | rfl | rfl | rfl | rfl | rfl | rfl | rfl | rfl | rfl | rfl |
    rfl | rfl | rfl | rfl | rfl | rfl | rfl | rfl | rfl | rfl | rfl | rfl <;>
    first
      | (rw [toNat_digitChar]; omega)
      | (refine ⟨by decide, by decide⟩)

theorem lowerHex_ascii {c : Char} (h : isLowerHexDigit c = true) :
    c.toNat < 128 ∧ c.toNat ≠ 124 := by
  unfold isLowerHexDigit at h
  simp only [Bool.or_eq_true, Bool.and_eq_true, decide_eq_true_eq] at h
  omega

theorem hex_of_lowerHex {c : Char} (h : isLowerHexDigit c = true) : isHexDigit c = true := by
  unfold isLowerHexDigit at h
  unfold isHexDigit
  simp only [Bool.or_eq_true, Bool.and_eq_true, decide_eq_true_eq] at h ⊢
  omega

theorem ne_of_toNat_ne {c c' : Char} (h : c.toNat ≠ c'.toNat) : c ≠ c' := by
  intro hc
  subst hc
  exact h rfl

/-! ## Splitting on the separator -/

theorem splitOnChar_nosep (sep : Char) :
    ∀ l : List Char, (∀ c ∈ l, c ≠ sep) → splitOnChar sep l = [l]
  | [], _ => rfl
  | c :: rest, h => by
    have hc : c ≠ sep := h c (by simp)
    have ih := splitOnChar_nosep sep rest (fun x hx => h x (by simp [hx]))
    show (let r := splitOnChar sep rest
          if c = sep then [] :: r
          else
            match r with
            | h :: t => (c :: h) :: t
            | [] => [[c]]) = [c :: rest]
    rw [ih]
    simp only [if_neg hc]

theorem splitOnChar_sep_cons (sep : Char) (b : List Char) :
    splitOnChar sep (sep :: b) = [] :: splitOnChar sep b := by
  show (let r := splitOnChar sep b
        if sep = sep then [] :: r
        else
          match r with
          | h :: t => (sep :: h) :: t
          | [] => [[sep]]) = [] :: splitOnChar sep b
  simp

theorem splitOnChar_append (sep : Char) :
    ∀ (a : List Char) {l : List Char} {h : List Char} {t : List (List Char)},
      splitOnChar sep l = h :: t → (∀ c ∈ a, c ≠ sep) →
      splitOnChar sep (a ++ l) = (a ++ h) :: t
  | [], l, h, t, hl, _ => by simpa using hl
  | c :: a', l, h, t, hl, ha => by
    have hc : c ≠ sep := ha c (by simp)
    have ih := splitOnChar_append sep a' hl (fun x hx => ha x (by simp [hx]))
    show (let r := splitOnChar sep (a' ++ l)
          if c = sep then [] :: r
          else
            match r with
            | h :: t => (c :: h) :: t
            | [] => [[c]]) = ((c :: a') ++ h) :: t
    rw [ih]
    simp only [if_neg hc]
    rfl

/-! ## The codec round trip -/

theorem decodeCursorInner_encodeCursor (d : DateC) (i : String)
    (hd : ValidDate d) (hi : ValidOid i) :
    decodeCursorInner (encodeCursor d i) = Except.ok (d, i) := by
  obtain ⟨hlen, hhex⟩ := hi
  have hbytes : ∀ x ∈ (isoChars d ++ '|' :: i.toList).map Char.toNat, x < 256 := by
    intro x hx
    simp only [List.mem_map, List.mem_append, List.mem_cons] at hx
    obtain ⟨c, hc, rfl⟩ := hx
    rcases hc with hc | rfl | hc
    · exact lt_trans (mem_isoChars_ascii d c hc).1 (by omega)
    · decide
    · exact lt_trans (lowerHex_ascii (hhex c hc)).1 (by omega)
  have hsplit : splitOnChar '|' (isoChars d ++ '|' :: i.toList) = [isoChars d, i.toList] := by
    have h1 : splitOnChar '|' ('|' :: i.toList) = [] :: splitOnChar '|' i.toList :=
      splitOnChar_sep_cons '|' i.toList
    have h2 : splitOnChar '|' i.toList = [i.toList] :=
      splitOnChar_nosep '|' i.toList fun c hc =>
        ne_of_toNat_ne (by have := (lowerHex_ascii (hhex c hc)).2; simpa using this)
    rw [h2] at h1
    have h3 := splitOnChar_append '|' (isoChars d) h1
      (fun c hc => ne_of_toNat_ne (by have := (mem_isoChars_ascii d c hc).2; simpa using this))
    simpa using h3
  have hofn : (isoChars d ++ '|' :: i.toList).map (Char.ofNat ∘ Char.toNat) =
      isoChars d ++ '|' :: i.toList := by
    simp [Function.comp_def, Char.ofNat_toNat]
  have hiso_ne : (isoChars d).isEmpty = false := by rw [isoChars_eq]; rfl
  have hid_ne : i.toList.isEmpty = false := by
    cases hl : i.toList with
    | nil => rw [hl] at hlen; simp at hlen
    | cons a as => rfl
  have hvalid : isValidObjectId i = true := by
    unfold isValidObjectId
    rw [hlen]
    simp only [List.all_eq_true, Bool.or_eq_true, Bool.and_eq_true, beq_iff_eq]
    right
    refine ⟨trivial, fun c hc => hex_of_lowerHex (hhex c hc)⟩
  show decodeCursorInner
      (String.mk (b64EncodeBytes ((isoChars d ++ '|' :: i.toList).map Char.toNat))) =
      Except.ok (d, i)
  unfold decodeCursorInner
  rw [toList_mk, b64_roundtrip _ hbytes]
  simp only [List.map_map, hofn, hsplit, List.getD, List.get?, Option.getD_some,
    hiso_ne, hid_ne, Bool.or_self, Bool.false_eq_true, if_false,
    parseIso_isoChars d hd, hvalid, if_true, mk_toList]

theorem decodeCursor_encodeCursor (d : DateC) (i : String)
    (hd : ValidDate d) (hi : ValidOid i) :
    decodeCursor (encodeCursor d i) = Except.ok (d, i) := by
  unfold decodeCursor
  rw [decodeCursorInner_encodeCursor d i hd hi]

theorem encodeCursor_ne_empty (d : DateC) (i : String) : encodeCursor d i ≠ "" := by
  intro h
  have h2 := congrArg String.toList h
  rw [show (encodeCursor d i).toList =
      b64EncodeBytes ((isoChars d ++ '|' :: i.toList).map Char.toNat) from rfl] at h2
  rw [isoChars_eq] at h2
  simp [b64EncodeBytes] at h2

/-! ## Post keys and the query predicate -/

theorem dateKey_inj {a b : DateC} (h : dateKey a = dateKey b) : a = b := by
  cases a
  cases b
  simp only [dateKey, List.cons.injEq, and_true] at h
  obtain ⟨h1, h2, h3, h4, h5, h6, h7⟩ := h
  subst h1; subst h2; subst h3; subst h4; subst h5; subst h6; subst h7
  rfl

theorem postAfter_eq_listLt (p x : Post) :
    postAfter (p.createdAt, p.id) x = listLt (postKey x) (postKey p) := by
  have hlen : (dateKey x.createdAt).length = (dateKey p.createdAt).length := by simp [dateKey]
  have hdec : decide (x.createdAt = p.createdAt) =
      decide (dateKey x.createdAt = dateKey p.createdAt) := by
    rw [decide_eq_decide]
    exact ⟨fun h => by rw [h], fun h => dateKey_inj h⟩
  unfold postAfter postKey
  dsimp only
  rw [listLt_append hlen]
  unfold dateLtB oidLtB
  rw [hdec]

theorem matchesQuery_some (pos : DateC × String) (x : Post) :
    matchesQuery (some pos) x = (!x.isDeleted && postAfter pos x) := rfl

theorem matchesQuery_none (x : Post) : matchesQuery none x = !x.isDeleted := by
  unfold matchesQuery
  exact Bool.and_true _

theorem postBefore_asymm {a b : Post} (h : postBefore a b = true) : postBefore b a = false :=
  listLt_asymm h

theorem postBefore_trans {a b c : Post} (h1 : postBefore a b = true)
    (h2 : postBefore b c = true) : postBefore a c = true :=
  listLt_trans h2 h1

theorem postBefore_total {a b : Post} (h : postKey a ≠ postKey b) :
    postBefore a b = true ∨ postBefore b a = true := by
  rcases Bool.eq_false_or_eq_true (postBefore a b) with hab | hab
  · exact Or.inl hab
  · rcases Bool.eq_false_or_eq_true (postBefore b a) with hba | hba
    · exact Or.inr hba
    · exact absurd (listLt_connex hba hab) h

/-! ## The sorted collection -/

theorem insertPost_perm (p : Post) : ∀ l : List Post, (insertPost p l).Perm (p :: l)
  | [] => List.Perm.refl _
  | q :: qs => by
    unfold insertPost
    by_cases h : postBefore p q = true
    · rw [if_pos h]
    · rw [if_neg h]
      exact (List.Perm.cons q (insertPost_perm p qs)).trans (List.Perm.swap p q qs)

theorem mem_insertPost {x p : Post} {l : List Post} :
    x ∈ insertPost p l ↔ x = p ∨ x ∈ l := by
  rw [(insertPost_perm p l).mem_iff]
  simp

theorem sortPosts_perm (l : List Post) : (sortPosts l).Perm l := by
  induction l with
  | nil => exact List.Perm.refl _
  | cons p rest ih =>
    show (insertPost p (sortPosts rest)).Perm (p :: rest)
    exact (insertPost_perm p (sortPosts rest)).trans (List.Perm.cons p ih)

theorem pairwise_insertPost {p : Post} :
    ∀ {l : List Post}, l.Pairwise (fun a b => postBefore a b = true) →
      (∀ q ∈ l, postKey p ≠ postKey q) →
      (insertPost p l).Pairwise (fun a b => postBefore a b = true)
  | [], _, _ => by simp [insertPost]
  | q :: qs, hl, hcmp => by
    unfold insertPost
    by_cases h : postBefore p q = true
    · rw [if_pos h, List.pairwise_cons]
      refine ⟨?_, hl⟩
      intro b hb
      rcases List.mem_cons.mp hb with rfl | hb
      · exact h
      · exact postBefore_trans h ((List.pairwise_cons.mp hl).1 b hb)
    · rw [if_neg h]
      rw [List.pairwise_cons] at hl ⊢
      obtain ⟨hq, hqs⟩ := hl
      refine ⟨?_, pairwise_insertPost hqs fun x hx => hcmp x (by simp [hx])⟩
      intro b hb
      rcases mem_insertPost.mp hb with rfl | hb
      · rcases postBefore_total (hcmp q (by simp)) with hc | hc
        · exact absurd hc h
        · exact hc
      · exact hq b hb

theorem sortPosts_sorted : ∀ {l : List Post},
    l.Pairwise (fun a b => postKey a ≠ postKey b) →
    (sortPosts l).Pairwise (fun a b => postBefore a b = true)
  | [], _ => by simp [sortPosts]
  | p :: rest, h => by
    rw [List.pairwise_cons] at h
    obtain ⟨hp, hrest⟩ := h
    show (insertPost p (sortPosts rest)).Pairwise _
    apply pairwise_insertPost (sortPosts_sorted hrest)
    intro q hq
    exact hp q ((sortPosts_perm rest).mem_iff.mp hq)

/-! ## The keyset predicate against a sorted decomposition -/

theorem filter_matches_decomp (cur : Post) (A B : List Post)
    (hsort : (A ++ cur :: B).Pairwise (fun a b => postBefore a b = true))
    (hdel : ∀ x ∈ A ++ cur :: B, x.isDeleted = false) :
    (A ++ cur :: B).filter (matchesQuery (some (cur.createdAt, cur.id))) = B := by
  rw [List.pairwise_append] at hsort
  obtain ⟨hA, hCB, hAcb⟩ := hsort
  rw [List.pairwise_cons] at hCB
  obtain ⟨hcb, hB⟩ := hCB
  rw [List.filter_append]
  have hfA : A.filter (matchesQuery (some (cur.createdAt, cur.id))) = [] := by
    rw [List.filter_eq_nil_iff]
    intro a ha
    have hbefore : postBefore a cur = true := hAcb a ha cur (by simp)
    rw [matchesQuery_some, postAfter_eq_listLt, listLt_asymm hbefore]
    simp
  have hfcur : matchesQuery (some (cur.createdAt, cur.id)) cur = false := by
    rw [matchesQuery_some, postAfter_eq_listLt, listLt_irrefl]
    simp
  have hfB : B.filter (matchesQuery (some (cur.createdAt, cur.id))) = B := by
    rw [List.filter_eq_self]
    intro b hb
    have hafter : listLt (postKey b) (postKey cur) = true := hcb b hb
    have hdelb : b.isDeleted = false := hdel b (by simp [hb])
    rw [matchesQuery_some, postAfter_eq_listLt, hafter, hdelb]
    rfl
  rw [hfA, List.filter_cons, hfcur]
  simp [hfB]

theorem filter_matches_none (L : List Post) (hdel : ∀ x ∈ L, x.isDeleted = false) :
    L.filter (matchesQuery none) = L := by
  rw [List.filter_eq_self]
  intro a ha
  rw [matchesQuery_none, hdel a ha]
  rfl

/-! ## Resolution normal forms -/

theorem resolvePage_more (store : List Post) (cur : Option (DateC × String)) (ℓ : Int)
    (F : List Post) (p r : Post) (R' : List Post)
    (hM : (sortPosts store).filter (matchesQuery cur) = F ++ p :: r :: R')
    (hl : ℓ = (F.length : Int) + 1) :
    resolvePage store cur ℓ =
      { posts := (F ++ [p]).map transformPost
        pagination :=
          { nextCursor := some (encodeCursor p.createdAt p.id)
            hasMore := true
            limit := ℓ
            count := F.length + 1 } } := by
  have hq : mongoLimit (ℓ + 1) ((sortPosts store).filter (matchesQuery cur)) = F ++ [p, r] := by
    rw [hM]
    unfold mongoLimit
    rw [if_neg (by omega : ¬ ℓ + 1 = 0)]
    have hnat : (ℓ + 1).natAbs = F.length + 2 := by omega
    rw [hnat, List.take_append]
    simp
  have hmore : decide (((F ++ [p, r]).length : Int) > ℓ) = true := by
    apply decide_eq_true
    simp only [List.length_append, List.length_cons, List.length_nil]
    omega
  have hdrop : (F ++ [p, r]).dropLast = F ++ [p] := by
    rw [show F ++ [p, r] = (F ++ [p]) ++ [r] by simp]
    exact List.dropLast_concat
  have hlast : (F ++ [p]).getLast? = some p := List.getLast?_concat _
  have hpos : decide (0 < (F ++ [p]).length) = true := by
    apply decide_eq_true
    simp
  simp only [resolvePage]
  rw [hq, hmore]
  rw [if_pos rfl]
  rw [hdrop, hpos, hlast]
  simp [List.length_map]

theorem resolvePage_le (store : List Post) (cur : Option (DateC × String)) (ℓ : Int)
    (M : List Post)
    (hM : (sortPosts store).filter (matchesQuery cur) = M)
    (hlen : (M.length : Int) ≤ ℓ) :
    resolvePage store cur ℓ =
      { posts := M.map transformPost
        pagination :=
          { nextCursor := none, hasMore := false, limit := ℓ, count := M.length } } := by
  have hq : mongoLimit (ℓ + 1) ((sortPosts store).filter (matchesQuery cur)) = M := by
    rw [hM]
    unfold mongoLimit
    rw [if_neg (by omega : ¬ ℓ + 1 = 0)]
    apply List.take_of_length_le
    omega
  have hmore : decide ((M.length : Int) > ℓ) = false := by
    apply decide_eq_false
    omega
  simp only [resolvePage]
  rw [hq, hmore]
  rw [if_neg (by simp)]
  rw [if_neg (by simp)]
  simp [List.length_map]

/-! ## Handler wrappers -/

theorem handleGetPosts_ok (store : List Post) (limQ afterQ : Option String)
    (cur : Option (DateC × String)) (hcur : decodedCursorOf afterQ = Except.ok cur) :
    handleGetPosts store limQ afterQ =
      GetPostsResult.ok (resolvePage store cur (effectiveLimit limQ)) := by
  unfold handleGetPosts
  rw [hcur]

theorem decodedCursorOf_encode (d : DateC) (i : String) (hd : ValidDate d) (hi : ValidOid i) :
    decodedCursorOf (some (encodeCursor d i)) = Except.ok (some (d, i)) := by
  show (if encodeCursor d i = "" then Except.ok none
        else
          match decodeCursor (encodeCursor d i) with
          | Except.ok v => Except.ok (some v)
          | Except.error e => Except.error e) = Except.ok (some (d, i))
  rw [if_neg (encodeCursor_ne_empty d i), decodeCursor_encodeCursor d i hd hi]

/-! ## Decomposition of a list at an index -/

theorem exists_decomp {α : Type} (l : List α) (n : Nat) (h : n < l.length) :
    ∃ F p R, l = F ++ p :: R ∧ F.length = n ∧ R.length = l.length - n - 1 := by
  have hne : l.drop n ≠ [] := by
    intro hd
    have hld := List.length_drop n l
    rw [hd] at hld
    simp at hld
    omega
  obtain ⟨p, R, hpR⟩ := List.exists_cons_of_ne_nil hne
  refine ⟨l.take n, p, R, ?_, ?_, ?_⟩
  · rw [← hpR, List.take_append_drop]
  · rw [List.length_take]
    omega
  · have hld := List.length_drop n l
    rw [hpR] at hld
    simp at hld
    omega

theorem resolvePage_more' (store : List Post) (cur : Option (DateC × String)) (ℓ : Int)
    (F : List Post) (p : Post) (R : List Post)
    (hM : (sortPosts store).filter (matchesQuery cur) = F ++ p :: R)
    (hl : ℓ = (F.length : Int) + 1) (hR : R ≠ []) :
    resolvePage store cur ℓ =
      { posts := (F ++ [p]).map transformPost
        pagination :=
          { nextCursor := some (encodeCursor p.createdAt p.id)
            hasMore := true
            limit := ℓ
            count := F.length + 1 } } := by
  obtain ⟨r, R', rfl⟩ := List.exists_cons_of_ne_nil hR
  exact resolvePage_more store cur ℓ F p r R' hM hl

/-! ## Key distinctness lemmas -/

theorem dateLtB_ne {a b : DateC} (h : dateLtB a b = true) : a ≠ b := by
  intro he
  subst he
  unfold dateLtB at h
  rw [listLt_irrefl] at h
  exact absurd h (by simp)

theorem postKey_ne_of_createdAt_ne {a b : Post} (h : a.createdAt ≠ b.createdAt) :
    postKey a ≠ postKey b := by
  intro he
  unfold postKey at he
  exact h (dateKey_inj (List.append_inj he (by simp [dateKey])).1)

theorem hexVal_inj_lower {c c' : Char} (hc : isLowerHexDigit c = true)
    (hc' : isLowerHexDigit c' = true) (h : hexVal c = hexVal c') : c = c' := by
  unfold isLowerHexDigit at hc hc'
  simp only [Bool.or_eq_true, Bool.and_eq_true, decide_eq_true_eq] at hc hc'
  have ht : c.toNat = c'.toNat := by
    unfold hexVal at h
    rcases hc with h1 | h1 <;> rcases hc' with h2 | h2 <;> (split_ifs at h <;> omega)
  calc c = Char.ofNat c.toNat := (Char.ofNat_toNat c).symm
    _ = Char.ofNat c'.toNat := by rw [ht]
    _ = c' := Char.ofNat_toNat c'

theorem map_hexVal_inj : ∀ {l1 l2 : List Char}, (∀ c ∈ l1, isLowerHexDigit c = true) →
    (∀ c ∈ l2, isLowerHexDigit c = true) → l1.map hexVal = l2.map hexVal → l1 = l2
  | [], [], _, _, _ => rfl
  | [], _ :: _, _, _, h => by simp at h
  | _ :: _, [], _, _, h => by simp at h
  | a :: as, b :: bs, h1, h2, h => by
    simp only [List.map_cons, List.cons.injEq] at h
    obtain ⟨hh, ht⟩ := h
    rw [hexVal_inj_lower (h1 a (by simp)) (h2 b (by simp)) hh,
      map_hexVal_inj (fun c hc => h1 c (by simp [hc])) (fun c hc => h2 c (by simp [hc])) ht]

theorem oidKey_inj {s s' : String} (hs : ValidOid s) (hs' : ValidOid s')
    (h : oidKey s = oidKey s') : s = s' := by
  have hl : s.toList = s'.toList := map_hexVal_inj hs.2 hs'.2 h
  calc s = String.mk s.toList := (mk_toList s).symm
    _ = String.mk s'.toList := by rw [hl]
    _ = s' := mk_toList s'

theorem postKey_ne_of_id_ne {a b : Post} (ha : ValidOid a.id) (hb : ValidOid b.id)
    (h : a.id ≠ b.id) : postKey a ≠ postKey b := by
  intro he
  unfold postKey at he
  exact h (oidKey_inj ha hb (List.append_inj he (by simp [dateKey])).2)

theorem postBefore_dateLt {a b : Post} (h : postBefore a b = true)
    (hne : a.createdAt ≠ b.createdAt) : dateLtB b.createdAt a.createdAt = true := by
  unfold postBefore postKey at h
  rw [listLt_append (by simp [dateKey])] at h
  simp only [Bool.or_eq_true] at h
  cases h with
  | inl h1 => exact h1
  | inr h2 =>
    simp only [Bool.and_eq_true, decide_eq_true_eq] at h2
    exact absurd (dateKey_inj h2.1).symm hne

theorem postBefore_oidLt {a b : Post} (h : postBefore a b = true)
    (hd : a.createdAt = b.createdAt) : oidLtB b.id a.id = true := by
  unfold postBefore postKey at h
  rw [listLt_append (by simp [dateKey])] at h
  simp only [Bool.or_eq_true] at h
  cases h with
  | inl h1 =>
    rw [hd, listLt_irrefl] at h1
    exact absurd h1 (by simp)
  | inr h2 =>
    simp only [Bool.and_eq_true] at h2
    exact h2.2

/-! ## The three-page walk -/

theorem walk3 (store : List Post) (lim : Nat) (limQ : Option String)
    (hlim : 1 ≤ lim)
    (hlen1 : 2 * lim < store.length) (hlen2 : store.length ≤ 3 * lim)
    (heff : effectiveLimit limQ = (lim : Int))
    (hdel : ∀ p ∈ store, p.isDeleted = false)
    (hne : store.Pairwise (fun a b => postKey a ≠ postKey b))
    (hvd : ∀ p ∈ store, ValidDate p.createdAt)
    (hvo : ∀ p ∈ store, ValidOid p.id) :
    ∃ r1 r2 r3 t1 t2,
      handleGetPosts store limQ none = GetPostsResult.ok r1 ∧
      r1.pagination.nextCursor = some t1 ∧
      r1.pagination.hasMore = true ∧
      handleGetPosts store limQ (some t1) = GetPostsResult.ok r2 ∧
      r2.pagination.nextCursor = some t2 ∧
      r2.pagination.hasMore = true ∧
      handleGetPosts store limQ (some t2) = GetPostsResult.ok r3 ∧
      r3.pagination.hasMore = false ∧
      r3.pagination.nextCursor = none ∧
      r1.posts.length = lim ∧ r2.posts.length = lim ∧
      r3.posts.length = store.length - 2 * lim ∧
      r1.posts ++ r2.posts ++ r3.posts = (sortPosts store).map transformPost := by
  have hperm := sortPosts_perm store
  have hLlen : (sortPosts store).length = store.length := hperm.length_eq
  have hsorted := sortPosts_sorted hne
  have hdelL : ∀ p ∈ sortPosts store, p.isDeleted = false :=
    fun p hp => hdel p (hperm.mem_iff.mp hp)
  obtain ⟨F1, p1, R1, hd1, hF1, hR1⟩ :=
    exists_decomp (sortPosts store) (lim - 1) (by omega)
  have hR1len : R1.length = store.length - lim := by omega
  obtain ⟨F2, p2, R2, hd2, hF2, hR2⟩ := exists_decomp R1 (lim - 1) (by omega)
  have hR2len : R2.length = store.length - 2 * lim := by omega
  have hp1 : p1 ∈ sortPosts store := by rw [hd1]; simp
  have hp2 : p2 ∈ sortPosts store := by rw [hd1, hd2]; simp
  have hd3 : sortPosts store = (F1 ++ p1 :: F2) ++ p2 :: R2 := by
    rw [hd1, hd2]; simp
  have hsorted1 : (F1 ++ p1 :: R1).Pairwise (fun a b => postBefore a b = true) := by
    rw [← hd1]; exact hsorted
  have hsorted2 : ((F1 ++ p1 :: F2) ++ p2 :: R2).Pairwise (fun a b => postBefore a b = true) := by
    rw [← hd3]; exact hsorted
  have hdel1 : ∀ x ∈ F1 ++ p1 :: R1, x.isDeleted = false := by
    intro x hx; exact hdelL x (by rw [hd1]; exact hx)
  have hdel2 : ∀ x ∈ (F1 ++ p1 :: F2) ++ p2 :: R2, x.isDeleted = false := by
    intro x hx; exact hdelL x (by rw [hd3]; exact hx)
  have hM1 : (sortPosts store).filter (matchesQuery none) = F1 ++ p1 :: R1 := by
    rw [filter_matches_none _ hdelL]; exact hd1
  have hM2 : (sortPosts store).filter (matchesQuery (some (p1.createdAt, p1.id))) =
      F2 ++ p2 :: R2 := by
    calc (sortPosts store).filter (matchesQuery (some (p1.createdAt, p1.id)))
        = (F1 ++ p1 :: R1).filter (matchesQuery (some (p1.createdAt, p1.id))) := by rw [← hd1]
      _ = R1 := filter_matches_decomp p1 F1 R1 hsorted1 hdel1
      _ = F2 ++ p2 :: R2 := hd2
  have hM3 : (sortPosts store).filter (matchesQuery (some (p2.createdAt, p2.id))) = R2 := by
    calc (sortPosts store).filter (matchesQuery (some (p2.createdAt, p2.id)))
        = ((F1 ++ p1 :: F2) ++ p2 :: R2).filter (matchesQuery (some (p2.createdAt, p2.id))) := by
          rw [← hd3]
      _ = R2 := filter_matches_decomp p2 (F1 ++ p1 :: F2) R2 hsorted2 hdel2
  have hres1 := resolvePage_more' store none (lim : Int) F1 p1 R1 hM1
    (by rw [hF1]; omega)
    (by intro h; rw [h] at hR1len; simp at hR1len; omega)
  have hres2 := resolvePage_more' store (some (p1.createdAt, p1.id)) (lim : Int) F2 p2 R2 hM2
    (by rw [hF2]; omega)
    (by intro h; rw [h] at hR2len; simp at hR2len; omega)
  have hres3 := resolvePage_le store (some (p2.createdAt, p2.id)) (lim : Int) R2 hM3
    (by rw [hR2len]; omega)
  have hh1 : handleGetPosts store limQ none =
      GetPostsResult.ok (resolvePage store none (lim : Int)) := by
    rw [handleGetPosts_ok store limQ none none rfl, heff]
  have hh2 : handleGetPosts store limQ (some (encodeCursor p1.createdAt p1.id)) =
      GetPostsResult.ok (resolvePage store (some (p1.createdAt, p1.id)) (lim : Int)) := by
    rw [handleGetPosts_ok store limQ _ (some (p1.createdAt, p1.id))
      (decodedCursorOf_encode p1.createdAt p1.id
        (hvd p1 (hperm.mem_iff.mp hp1)) (hvo p1 (hperm.mem_iff.mp hp1))), heff]
  have hh3 : handleGetPosts store limQ (some (encodeCursor p2.createdAt p2.id)) =
      GetPostsResult.ok (resolvePage store (some (p2.createdAt, p2.id)) (lim : Int)) := by
    rw [handleGetPosts_ok store limQ _ (some (p2.createdAt, p2.id))
      (decodedCursorOf_encode p2.createdAt p2.id
        (hvd p2 (hperm.mem_iff.mp hp2)) (hvo p2 (hperm.mem_iff.mp hp2))), heff]
  refine ⟨{ posts := (F1 ++ [p1]).map transformPost
            pagination := { nextCursor := some (encodeCursor p1.createdAt p1.id)
                            hasMore := true, limit := (lim : Int), count := F1.length + 1 } },
          { posts := (F2 ++ [p2]).map transformPost
            pagination := { nextCursor := some (encodeCursor p2.createdAt p2.id)
                            hasMore := true, limit := (lim : Int), count := F2.length + 1 } },
          { posts := R2.map transformPost
            pagination := { nextCursor := none
                            hasMore := false, limit := (lim : Int), count := R2.length } },
          encodeCursor p1.createdAt p1.id, encodeCursor p2.createdAt p2.id,
          ?_, rfl, rfl, ?_, rfl, rfl, ?_, rfl, rfl, ?_, ?_, ?_, ?_⟩
  · rw [hh1, hres1]
  · rw [hh2, hres2]
  · rw [hh3, hres3]
  · simp only [List.length_map, List.length_append, List.length_cons, List.length_nil]
    omega
  · simp only [List.length_map, List.length_append, List.length_cons, List.length_nil]
    omega
  · simp only [List.length_map]
    omega
  · show ((F1 ++ [p1]).map transformPost ++ (F2 ++ [p2]).map transformPost) ++
        R2.map transformPost = (sortPosts store).map transformPost
    rw [← List.map_append, ← List.map_append]
    congr 1
    rw [hd3]
    simp

/-! ## Scrub commutation: responses depend only on the non-liker view -/

theorem insertPost_scrub (p : Post) : ∀ l : List Post,
    insertPost (scrubLikes p) (l.map scrubLikes) = (insertPost p l).map scrubLikes
  | [] => rfl
  | q :: qs => by
    have hcmp : postBefore (scrubLikes p) (scrubLikes q) = postBefore p q := rfl
    show (if postBefore (scrubLikes p) (scrubLikes q) = true then _ else _) = _
    rw [hcmp]
    by_cases h : postBefore p q = true
    · rw [if_pos h]
      show _ = (if postBefore p q = true then p :: q :: qs else q :: insertPost p qs).map scrubLikes
      rw [if_pos h]
      rfl
    · rw [if_neg h]
      show scrubLikes q :: insertPost (scrubLikes p) (qs.map scrubLikes) =
        (if postBefore p q = true then p :: q :: qs else q :: insertPost p qs).map scrubLikes
      rw [if_neg h, insertPost_scrub p qs]
      rfl

theorem sortPosts_scrub : ∀ l : List Post,
    sortPosts (l.map scrubLikes) = (sortPosts l).map scrubLikes
  | [] => rfl
  | p :: rest => by
    show insertPost (scrubLikes p) (sortPosts (rest.map scrubLikes)) =
      (insertPost p (sortPosts rest)).map scrubLikes
    rw [sortPosts_scrub rest, insertPost_scrub]

theorem filter_scrub (cur : Option (DateC × String)) (l : List Post) :
    (l.map scrubLikes).filter (matchesQuery cur) =
      (l.filter (matchesQuery cur)).map scrubLikes := by
  rw [List.filter_map]
  have hcomp : (matchesQuery cur ∘ scrubLikes) = matchesQuery cur := funext fun x => rfl
  rw [hcomp]

theorem mongoLimit_map_scrub (k : Int) (l : List Post) :
    mongoLimit k (l.map scrubLikes) = (mongoLimit k l).map scrubLikes := by
  unfold mongoLimit
  split_ifs
  · rfl
  · rw [List.map_take]

theorem resolvePage_scrub (store : List Post) (cur : Option (DateC × String)) (ℓ : Int) :
    resolvePage (store.map scrubLikes) cur ℓ = resolvePage store cur ℓ := by
  have htrans : transformPost ∘ scrubLikes = transformPost := funext fun p => rfl
  have henc : ((fun p : Post => encodeCursor p.createdAt p.id) ∘ scrubLikes) =
      fun p : Post => encodeCursor p.createdAt p.id := funext fun p => rfl
  simp only [resolvePage, sortPosts_scrub, filter_scrub, mongoLimit_map_scrub,
    List.length_map]
  generalize mongoLimit (ℓ + 1) ((sortPosts store).filter (matchesQuery cur)) = q
  by_cases hm : decide ((q.length : Int) > ℓ) = true
  · rw [hm]
    simp [← List.map_dropLast, List.length_map, List.getLast?_map,
      Option.map_map, henc, List.map_map, htrans]
  · rw [Bool.not_eq_true] at hm
    rw [hm]
    simp [List.length_map, List.getLast?_map, Option.map_map, henc, List.map_map, htrans]

theorem handleGetPosts_scrub (store : List Post) (limQ afterQ : Option String) :
    handleGetPosts (store.map scrubLikes) limQ afterQ = handleGetPosts store limQ afterQ := by
  unfold handleGetPosts
  cases h : decodedCursorOf afterQ with
  | error e => rfl
  | ok cur =>
    dsimp only
    rw [resolvePage_scrub]

theorem resolvePage_posts_mem (store : List Post) (cur : Option (DateC × String)) (ℓ : Int) :
    ∀ pp ∈ (resolvePage store cur ℓ).posts, ∃ q ∈ store, pp = transformPost q := by
  intro pp hpp
  simp only [resolvePage] at hpp
  rw [List.mem_map] at hpp
  obtain ⟨x, hx, rfl⟩ := hpp
  refine ⟨x, ?_, rfl⟩
  have h1 : x ∈ mongoLimit (ℓ + 1) ((sortPosts store).filter (matchesQuery cur)) := by
    revert hx
    split_ifs
    · intro hx
      exact List.Sublist.mem hx (List.dropLast_sublist _)
    · exact fun hx => hx
  have h2 : x ∈ (sortPosts store).filter (matchesQuery cur) := by
    revert h1
    unfold mongoLimit
    split_ifs
    · exact fun h1 => h1
    · exact fun h1 => List.Sublist.mem h1 (List.take_sublist _ _)
  exact (sortPosts_perm store).mem_iff.mp (List.Sublist.mem h2 (List.filter_sublist _))

/-! ## Field shape of a resolution -/

theorem resolvePage_shape (store : List Post) (cur : Option (DateC × String)) (ℓ : Int)
    (hℓ : 1 ≤ ℓ) :
    (resolvePage store cur ℓ).pagination.limit = ℓ ∧
    (resolvePage store cur ℓ).pagination.count = (resolvePage store cur ℓ).posts.length ∧
    (((sortPosts store).filter (matchesQuery cur)).length ≤ ℓ.toNat →
      (resolvePage store cur ℓ).pagination.hasMore = false ∧
      (resolvePage store cur ℓ).posts =
        ((sortPosts store).filter (matchesQuery cur)).map transformPost ∧
      (resolvePage store cur ℓ).pagination.nextCursor = none) ∧
    (ℓ.toNat < ((sortPosts store).filter (matchesQuery cur)).length →
      (resolvePage store cur ℓ).pagination.hasMore = true ∧
      (resolvePage store cur ℓ).posts.length = ℓ.toNat ∧
      (resolvePage store cur ℓ).pagination.nextCursor.isSome = true) := by
  refine ⟨rfl, rfl, ?_, ?_⟩
  · intro hle
    have hres := resolvePage_le store cur ℓ _ rfl (by omega)
    rw [hres]
    exact ⟨rfl, rfl, rfl⟩
  · intro hgt
    obtain ⟨F, p, R, hdec, hF, hR⟩ :=
      exists_decomp ((sortPosts store).filter (matchesQuery cur)) (ℓ.toNat - 1) (by omega)
    have hres := resolvePage_more' store cur ℓ F p R hdec (by rw [hF]; omega)
      (by intro h; rw [h] at hR; simp at hR; omega)
    rw [hres]
    refine ⟨rfl, ?_, rfl⟩
    simp only [List.length_map, List.length_append, List.length_cons, List.length_nil]
    omega

/-! ## Claim theorems -/

/-- C1: for a collection of 25 non-deleted posts with strictly increasing
(pairwise distinct) createdAt values, walking the listing operation three times
with limit=10, passing each response's nextCursor as the next call's cursor,
yields pages of sizes 10, 10, 5 whose concatenation is exactly all 25 posts in
descending createdAt order, with no post repeated and none omitted, and the
third page has hasMore=false. -/
theorem claim_C1_no_duplication_no_gaps (store : List Post)
    (hlen : store.length = 25)
    (hdel : ∀ p ∈ store, p.isDeleted = false)
    (hinc : store.Pairwise (fun a b => dateLtB a.createdAt b.createdAt = true))
    (hvd : ∀ p ∈ store, ValidDate p.createdAt)
    (hvo : ∀ p ∈ store, ValidOid p.id) :
    ∃ r1 r2 r3 t1 t2,
      handleGetPosts store (some "10") none = GetPostsResult.ok r1 ∧
      r1.pagination.nextCursor = some t1 ∧ r1.pagination.hasMore = true ∧
      handleGetPosts store (some "10") (some t1) = GetPostsResult.ok r2 ∧
      r2.pagination.nextCursor = some t2 ∧ r2.pagination.hasMore = true ∧
      handleGetPosts store (some "10") (some t2) = GetPostsResult.ok r3 ∧
      r3.pagination.hasMore = false ∧
      r1.posts.length = 10 ∧ r2.posts.length = 10 ∧ r3.posts.length = 5 ∧
      (r1.posts ++ r2.posts ++ r3.posts).Pairwise
        (fun a b => dateLtB b.createdAt a.createdAt = true) ∧
      (r1.posts ++ r2.posts ++ r3.posts).Perm (store.map transformPost) := by
  have hne : store.Pairwise (fun a b => postKey a ≠ postKey b) :=
    hinc.imp fun h => postKey_ne_of_createdAt_ne (dateLtB_ne h)
  have hLdates : (sortPosts store).Pairwise (fun a b => a.createdAt ≠ b.createdAt) :=
    ((sortPosts_perm store).pairwise_iff fun h => Ne.symm h).mpr
      (hinc.imp fun h => dateLtB_ne h)
  have hdesc : (sortPosts store).Pairwise
      (fun a b => dateLtB b.createdAt a.createdAt = true) :=
    ((sortPosts_sorted hne).and hLdates).imp fun h => postBefore_dateLt h.1 h.2
  obtain ⟨r1, r2, r3, t1, t2, h1, h2, h3, h4, h5, h6, h7, h8, h9, hl1, hl2, hl3, hcat⟩ :=
    walk3 store 10 (some "10") (by omega) (by omega) (by omega) (by decide) hdel hne hvd hvo
  refine ⟨r1, r2, r3, t1, t2, h1, h2, h3, h4, h5, h6, h7, h8, hl1, hl2, by omega, ?_, ?_⟩
  · rw [hcat]
    exact List.pairwise_map.mpr hdesc
  · rw [hcat]
    exact (sortPosts_perm store).map transformPost

/-- C7: for a collection of exactly 3 non-deleted posts sharing one identical
createdAt but having distinct (canonical) ids, three successive listing calls
with limit=1, each using the previous response's nextCursor, return exactly one
of the three posts per page, in strictly descending id order, with none
repeated. -/
theorem claim_C7_tie_handling (store : List Post) (c : DateC)
    (hlen : store.length = 3)
    (hdel : ∀ p ∈ store, p.isDeleted = false)
    (hsame : ∀ p ∈ store, p.createdAt = c)
    (hids : store.Pairwise (fun a b => a.id ≠ b.id))
    (hvd : ValidDate c)
    (hvo : ∀ p ∈ store, ValidOid p.id) :
    ∃ r1 r2 r3 t1 t2,
      handleGetPosts store (some "1") none = GetPostsResult.ok r1 ∧
      r1.pagination.nextCursor = some t1 ∧
      handleGetPosts store (some "1") (some t1) = GetPostsResult.ok r2 ∧
      r2.pagination.nextCursor = some t2 ∧
      handleGetPosts store (some "1") (some t2) = GetPostsResult.ok r3 ∧
      r1.posts.length = 1 ∧ r2.posts.length = 1 ∧ r3.posts.length = 1 ∧
      (r1.posts ++ r2.posts ++ r3.posts).Pairwise
        (fun a b => oidLtB b.id a.id = true) ∧
      (r1.posts ++ r2.posts ++ r3.posts).Perm (store.map transformPost) := by
  have hne : store.Pairwise (fun a b => postKey a ≠ postKey b) :=
    hids.imp_of_mem fun {a b} ha hb h => postKey_ne_of_id_ne (hvo a ha) (hvo b hb) h
  have hvd' : ∀ p ∈ store, ValidDate p.createdAt := fun p hp => by
    rw [hsame p hp]; exact hvd
  have hsameL : ∀ p ∈ sortPosts store, p.createdAt = c := fun p hp =>
    hsame p ((sortPosts_perm store).mem_iff.mp hp)
  have hdesc : (sortPosts store).Pairwise (fun a b => oidLtB b.id a.id = true) :=
    (sortPosts_sorted hne).imp_of_mem fun {a b} ha hb h =>
      postBefore_oidLt h (by rw [hsameL a ha, hsameL b hb])
  obtain ⟨r1, r2, r3, t1, t2, h1, h2, h3, h4, h5, h6, h7, h8, h9, hl1, hl2, hl3, hcat⟩ :=
    walk3 store 1 (some "1") (by omega) (by omega) (by omega) (by decide) hdel hne hvd' hvo
  refine ⟨r1, r2, r3, t1, t2, h1, h2, h4, h5, h7, hl1, hl2, by omega, ?_, ?_⟩
  · rw [hcat]
    exact List.pairwise_map.mpr hdesc
  · rw [hcat]
    exact (sortPosts_perm store).map transformPost

/-- C2: the query predicate excludes soft-deleted posts, and with a decoded
position `(c, i)` it selects exactly the posts with
`createdAt < c OR (createdAt = c AND id < i)`; it is not equivalent to
`createdAt < c` alone, nor to `createdAt <= c AND id < i`, as the exhibited
instances show. -/
theorem claim_C2_keyset_predicate (cur : Option (DateC × String)) (c : DateC) (i : String)
    (p : Post) :
    (matchesQuery cur p = true → p.isDeleted = false) ∧
    (p.isDeleted = false →
      (matchesQuery (some (c, i)) p = true ↔
        (dateLtB p.createdAt c = true ∨ (p.createdAt = c ∧ oidLtB p.id i = true)))) ∧
    (∃ (c' : DateC) (i' : String) (q q' : Post),
      q.isDeleted = false ∧ q'.isDeleted = false ∧
      matchesQuery (some (c', i')) q = true ∧ dateLtB q.createdAt c' = false ∧
      matchesQuery (some (c', i')) q' = true ∧
      ((!dateLtB c' q'.createdAt) && oidLtB q'.id i') = false) := by
  refine ⟨?_, ?_, ?_⟩
  · intro h
    unfold matchesQuery at h
    simp only [Bool.and_eq_true] at h
    simpa using h.1
  · intro hdel
    rw [matchesQuery_some]
    unfold postAfter
    dsimp only
    rw [hdel]
    simp
  · refine ⟨⟨2024, 1, 2, 0, 0, 0, 0⟩, sampleOid 1,
      { samplePost 0 with createdAt := ⟨2024, 1, 2, 0, 0, 0, 0⟩ },
      { samplePost 2 with createdAt := ⟨2024, 1, 1, 0, 0, 0, 0⟩ },
      by decide, by decide, by decide, by decide, by decide, by decide⟩

/-- C3: the resolver requests limit+1 matching records under the compound
descending ordering; fewer than limit+1 returned means hasMore=false and the
whole result is the page; exactly limit+1 returned means hasMore=true, the page
is the first limit records, and nextCursor encodes the (createdAt, id) of the
limit-th (last retained) record, not the discarded one. -/
theorem claim_C3_overfetch_truncate (store : List Post) (cur : Option (DateC × String))
    (ℓ : Int) (q : List Post) (hl : 1 ≤ ℓ)
    (hq : q = mongoLimit (ℓ + 1) ((sortPosts store).filter (matchesQuery cur))) :
    q = ((sortPosts store).filter (matchesQuery cur)).take (ℓ + 1).toNat ∧
    ((q.length : Int) < ℓ + 1 →
      (resolvePage store cur ℓ).pagination.hasMore = false ∧
      (resolvePage store cur ℓ).posts = q.map transformPost ∧
      (resolvePage store cur ℓ).pagination.nextCursor = none) ∧
    ((q.length : Int) = ℓ + 1 →
      (resolvePage store cur ℓ).pagination.hasMore = true ∧
      (resolvePage store cur ℓ).posts = (q.take ℓ.toNat).map transformPost ∧
      ∃ plast, (q.take ℓ.toNat).getLast? = some plast ∧
        (resolvePage store cur ℓ).pagination.nextCursor =
          some (encodeCursor plast.createdAt plast.id)) := by
  have htake : q = ((sortPosts store).filter (matchesQuery cur)).take (ℓ + 1).toNat := by
    rw [hq]
    unfold mongoLimit
    rw [if_neg (by omega)]
    congr 1
    omega
  have hqlen : q.length =
      min (ℓ + 1).toNat ((sortPosts store).filter (matchesQuery cur)).length := by
    rw [htake, List.length_take]
  refine ⟨htake, ?_, ?_⟩
  · intro hlt
    have hMle : (((sortPosts store).filter (matchesQuery cur)).length : Int) ≤ ℓ := by omega
    have hqM : q = (sortPosts store).filter (matchesQuery cur) := by
      rw [htake]
      apply List.take_of_length_le
      omega
    have hres := resolvePage_le store cur ℓ _ rfl hMle
    rw [hres, hqM]
    exact ⟨rfl, rfl, rfl⟩
  · intro heq
    have hMlen : ℓ.toNat < ((sortPosts store).filter (matchesQuery cur)).length := by omega
    obtain ⟨F, p, R, hdec, hF, hR⟩ :=
      exists_decomp ((sortPosts store).filter (matchesQuery cur)) (ℓ.toNat - 1) (by omega)
    have hres := resolvePage_more' store cur ℓ F p R hdec (by rw [hF]; omega)
      (by intro h; rw [h] at hR; simp at hR; omega)
    have hFp : q.take ℓ.toNat = F ++ [p] := by
      rw [htake, List.take_take]
      have hmin : min ℓ.toNat (ℓ + 1).toNat = ℓ.toNat := by omega
      rw [hmin, hdec]
      have hft : ℓ.toNat = F.length + 1 := by omega
      rw [hft, List.take_append]
      simp
    rw [hres, hFp]
    exact ⟨rfl, rfl, p, List.getLast?_concat _, rfl⟩

/-- C4: for every valid pair (createdAt, id) — a valid timestamp and a
canonical storage identifier — Decode(Encode(createdAt, id)) succeeds and
returns exactly that pair, and Encode is injective over valid inputs. -/
theorem claim_C4_roundtrip (d d' : DateC) (i i' : String)
    (hd : ValidDate d) (hi : ValidOid i) (hd' : ValidDate d') (hi' : ValidOid i') :
    decodeCursor (encodeCursor d i) = Except.ok (d, i) ∧
    (encodeCursor d i = encodeCursor d' i' → d = d' ∧ i = i') := by
  refine ⟨decodeCursor_encodeCursor d i hd hi, fun he => ?_⟩
  have h1 := decodeCursor_encodeCursor d i hd hi
  have h2 := decodeCursor_encodeCursor d' i' hd' hi'
  rw [he, h2] at h1
  simp only [Except.ok.injEq, Prod.mk.injEq] at h1
  exact ⟨h1.1.symm, h1.2.symm⟩

/-- C5: Decode rejects the empty token, a token with no separator
(base64 of "hello"), a token with an unparsable timestamp (base64 of
"foo|aaaaaaaaaaaaaaaaaaaaaaaa"), and a token with an invalid identifier
(base64 of "2024-01-01T00:00:00.000Z|zz"), always with the single message
"Malformed cursor"; Decode never produces any other error; and whenever the
handler sees a (truthy) token on which Decode fails, it answers the 400
Invalid-cursor response, independently of the store (no query is consulted). -/
theorem claim_C5_rejection (store : List Post) (limQ : Option String) :
    decodeCursor "" = Except.error "Malformed cursor" ∧
    decodeCursor "aGVsbG8=" = Except.error "Malformed cursor" ∧
    decodeCursor "Zm9vfGFhYWFhYWFhYWFhYWFhYWFhYWFhYWFhYQ==" =
      Except.error "Malformed cursor" ∧
    decodeCursor "MjAyNC0wMS0wMVQwMDowMDowMC4wMDBafHp6" = Except.error "Malformed cursor" ∧
    (∀ t : String, (∃ v, decodeCursor t = Except.ok v) ∨
      decodeCursor t = Except.error "Malformed cursor") ∧
    (∀ t e, t ≠ "" → decodeCursor t = Except.error e →
      handleGetPosts store limQ (some t) =
        GetPostsResult.badRequest "Invalid cursor" "Malformed cursor") := by
  refine ⟨by rfl, by rfl, by rfl, by rfl, ?_, ?_⟩
  · intro t
    unfold decodeCursor
    cases h : decodeCursorInner t with
    | ok v => exact Or.inl ⟨v, rfl⟩
    | error e => exact Or.inr rfl
  · intro t e hne hdec
    have hmc : decodeCursor t = Except.error "Malformed cursor" := by
      unfold decodeCursor at hdec ⊢
      cases h : decodeCursorInner t with
      | ok v =>
        rw [h] at hdec
        exact absurd hdec (by simp)
      | error e' => rfl
    have hdc : decodedCursorOf (some t) = Except.error "Malformed cursor" := by
      show (if t = "" then Except.ok none
            else
              match decodeCursor t with
              | Except.ok v => Except.ok (some v)
              | Except.error e => Except.error e) = Except.error "Malformed cursor"
      rw [if_neg hne, hmc]
    unfold handleGetPosts
    rw [hdc]

/-- C6 counterexample: the claim fails on the code.  `limit=0` is falsy in
`parseInt(req.query.limit) || 10`, so it yields the default 10 rather than the
documented minimum 1; and a negative limit is never clamped from below, so
`limit=-5` stays -5, outside [1, 50]. -/
theorem claim_C6_counterexample :
    effectiveLimit (some "0") = 10 ∧ ¬ effectiveLimit (some "0") = 1 ∧
    effectiveLimit (some "-5") = -5 ∧ ¬ 1 ≤ effectiveLimit (some "-5") := by decide

/-- C6 amended: an absent or non-numeric limit yields the default 10; limit=0
is treated as absent (default 10, not the minimum 1); a nonzero parsed limit n
is capped above at 50 (so 10000 yields 50), hence every positive limit lands in
[1, 50]; negative limits pass through unclamped; no value is rejected. -/
theorem claim_C6_amended (q : Option String) (n : Int) :
    (parseIntJS q = none → effectiveLimit q = 10) ∧
    (parseIntJS q = some 0 → effectiveLimit q = 10) ∧
    (parseIntJS q = some n → n ≠ 0 → effectiveLimit q = min n 50) ∧
    (parseIntJS q = some n → 1 ≤ n → 1 ≤ effectiveLimit q ∧ effectiveLimit q ≤ 50) ∧
    effectiveLimit (some "10000") = 50 ∧ effectiveLimit none = 10 ∧
    effectiveLimit (some "abc") = 10 := by
  refine ⟨?_, ?_, ?_, ?_, by decide, by decide, by decide⟩
  · intro h
    unfold effectiveLimit
    rw [h]
    rfl
  · intro h
    unfold effectiveLimit
    rw [h]
    rfl
  · intro h hn
    unfold effectiveLimit
    rw [h]
    simp only [if_neg hn]
  · intro h hn
    unfold effectiveLimit
    rw [h]
    simp only [if_neg (by omega : ¬ n = 0)]
    rw [min_def]
    split_ifs <;> omega

/-- C8: every post in a listing response is the fixed projection (id, content,
author snapshot, likeCount, createdAt) of a stored post, and the handler result
depends on the store only through the liker-id-free view of its posts: two
stores that agree except for liker-id sets produce identical responses. -/
theorem claim_C8_privacy_projection (s1 s2 : List Post) (limQ afterQ : Option String)
    (h : s1.map scrubLikes = s2.map scrubLikes) :
    handleGetPosts s1 limQ afterQ = handleGetPosts s2 limQ afterQ ∧
    (∀ r, handleGetPosts s1 limQ afterQ = GetPostsResult.ok r →
      ∀ pp ∈ r.posts, ∃ q ∈ s1, pp = transformPost q) := by
  constructor
  · calc handleGetPosts s1 limQ afterQ
        = handleGetPosts (s1.map scrubLikes) limQ afterQ :=
          (handleGetPosts_scrub s1 limQ afterQ).symm
      _ = handleGetPosts (s2.map scrubLikes) limQ afterQ := by rw [h]
      _ = handleGetPosts s2 limQ afterQ := handleGetPosts_scrub s2 limQ afterQ
  · intro r hok pp hpp
    unfold handleGetPosts at hok
    cases hdc : decodedCursorOf afterQ with
    | error e =>
      rw [hdc] at hok
      exact absurd hok (by simp)
    | ok cur =>
      rw [hdc] at hok
      dsimp only at hok
      injection hok with hok'
      rw [← hok'] at hpp
      exact resolvePage_posts_mem s1 cur _ pp hpp

/-- C9 is wrong as stated: with the unclamped limit -1 and an empty collection,
the handler replies hasMore=true although no matching record exists at all
(and echoes limit=-1). -/
theorem claim_C9_counterexample :
    handleGetPosts [] (some "-1") none =
      GetPostsResult.ok
        { posts := []
          pagination := { nextCursor := none, hasMore := true, limit := -1, count := 0 } } ∧
    (sortPosts []).filter (matchesQuery none) = [] := by
  exact ⟨by decide, rfl⟩

/-- C9 amended: for every successful listing response whose effective limit is
at least 1, the posts sequence has length at most the effective limit,
hasMore=true iff strictly more matching records exist beyond the returned page,
count equals posts.length, and the echoed limit is the clamped limit applied. -/
theorem claim_C9_amended (store : List Post) (limQ afterQ : Option String)
    (cur : Option (DateC × String)) (r : PageResponse)
    (hcur : decodedCursorOf afterQ = Except.ok cur)
    (hok : handleGetPosts store limQ afterQ = GetPostsResult.ok r)
    (hlim : 1 ≤ effectiveLimit limQ) :
    r.posts.length ≤ (effectiveLimit limQ).toNat ∧
    (r.pagination.hasMore = true ↔
      r.posts.length < ((sortPosts store).filter (matchesQuery cur)).length) ∧
    r.pagination.count = r.posts.length ∧
    r.pagination.limit = effectiveLimit limQ := by
  have hr : r = resolvePage store cur (effectiveLimit limQ) := by
    unfold handleGetPosts at hok
    rw [hcur] at hok
    dsimp only at hok
    injection hok with hok'
    exact hok'.symm
  subst hr
  obtain ⟨hlimit, hcount, hle, hgt⟩ := resolvePage_shape store cur (effectiveLimit limQ) hlim
  rcases Nat.lt_or_ge (effectiveLimit limQ).toNat
      ((sortPosts store).filter (matchesQuery cur)).length with hc | hc
  · obtain ⟨hm, hplen, _⟩ := hgt hc
    refine ⟨by omega, ?_, hcount, hlimit⟩
    rw [hm, hplen]
    exact ⟨fun _ => hc, fun _ => rfl⟩
  · obtain ⟨hm, hposts, _⟩ := hle hc
    have hplen : (resolvePage store cur (effectiveLimit limQ)).posts.length =
        ((sortPosts store).filter (matchesQuery cur)).length := by
      rw [hposts, List.length_map]
    refine ⟨by omega, ?_, hcount, hlimit⟩
    rw [hm, hplen]
    simp

/-- C10: for every successful listing response with effective limit at least 1,
nextCursor is non-null exactly when hasMore is true. -/
theorem claim_C10_cursor_iff_more (store : List Post) (limQ afterQ : Option String)
    (r : PageResponse)
    (hok : handleGetPosts store limQ afterQ = GetPostsResult.ok r)
    (hlim : 1 ≤ effectiveLimit limQ) :
    r.pagination.nextCursor.isSome = true ↔ r.pagination.hasMore = true := by
  unfold handleGetPosts at hok
  cases hdc : decodedCursorOf afterQ with
  | error e =>
    rw [hdc] at hok
    exact absurd hok (by simp)
  | ok cur =>
    rw [hdc] at hok
    dsimp only at hok
    injection hok with hok'
    subst hok'
    obtain ⟨_, _, hle, hgt⟩ := resolvePage_shape store cur (effectiveLimit limQ) hlim
    rcases Nat.lt_or_ge (effectiveLimit limQ).toNat
        ((sortPosts store).filter (matchesQuery cur)).length with hc | hc
    · obtain ⟨hm, _, hsome⟩ := hgt hc
      rw [hm, hsome]
    · obtain ⟨hm, _, hnone⟩ := hle hc
      rw [hm, hnone]
      simp

/-! ## Witnesses: each claim theorem instantiated at concrete inputs -/

/-- Witness for C1: the 25-post sample store satisfies every hypothesis. -/
theorem claim_C1_witness :
    ∃ r1 r2 r3 t1 t2,
      handleGetPosts sampleStore25 (some "10") none = GetPostsResult.ok r1 ∧
      r1.pagination.nextCursor = some t1 ∧ r1.pagination.hasMore = true ∧
      handleGetPosts sampleStore25 (some "10") (some t1) = GetPostsResult.ok r2 ∧
      r2.pagination.nextCursor = some t2 ∧ r2.pagination.hasMore = true ∧
      handleGetPosts sampleStore25 (some "10") (some t2) = GetPostsResult.ok r3 ∧
      r3.pagination.hasMore = false ∧
      r1.posts.length = 10 ∧ r2.posts.length = 10 ∧ r3.posts.length = 5 ∧
      (r1.posts ++ r2.posts ++ r3.posts).Pairwise
        (fun a b => dateLtB b.createdAt a.createdAt = true) ∧
      (r1.posts ++ r2.posts ++ r3.posts).Perm (sampleStore25.map transformPost) :=
  claim_C1_no_duplication_no_gaps sampleStore25 (by decide) (by decide) (by decide)
    (by decide) (by decide)

/-- Witness for C2 at a concrete position and post. -/
theorem claim_C2_witness :
    (matchesQuery none (samplePost 0) = true → (samplePost 0).isDeleted = false) ∧
    ((samplePost 0).isDeleted = false →
      (matchesQuery (some (⟨2024, 1, 16, 0, 0, 0, 0⟩, sampleOid 1)) (samplePost 0) = true ↔
        (dateLtB (samplePost 0).createdAt ⟨2024, 1, 16, 0, 0, 0, 0⟩ = true ∨
          ((samplePost 0).createdAt = ⟨2024, 1, 16, 0, 0, 0, 0⟩ ∧
            oidLtB (samplePost 0).id (sampleOid 1) = true)))) ∧
    (∃ (c' : DateC) (i' : String) (q q' : Post),
      q.isDeleted = false ∧ q'.isDeleted = false ∧
      matchesQuery (some (c', i')) q = true ∧ dateLtB q.createdAt c' = false ∧
      matchesQuery (some (c', i')) q' = true ∧
      ((!dateLtB c' q'.createdAt) && oidLtB q'.id i') = false) :=
  claim_C2_keyset_predicate none ⟨2024, 1, 16, 0, 0, 0, 0⟩ (sampleOid 1) (samplePost 0)

/-- Witness for C3 at the 3-post sample store with limit 1. -/
theorem claim_C3_witness :
    mongoLimit 2 ((sortPosts sampleStore3).filter (matchesQuery none)) =
      ((sortPosts sampleStore3).filter (matchesQuery none)).take ((1 : Int) + 1).toNat ∧
    (((mongoLimit 2 ((sortPosts sampleStore3).filter (matchesQuery none))).length : Int) <
        1 + 1 →
      (resolvePage sampleStore3 none 1).pagination.hasMore = false ∧
      (resolvePage sampleStore3 none 1).posts =
        (mongoLimit 2 ((sortPosts sampleStore3).filter (matchesQuery none))).map
          transformPost ∧
      (resolvePage sampleStore3 none 1).pagination.nextCursor = none) ∧
    (((mongoLimit 2 ((sortPosts sampleStore3).filter (matchesQuery none))).length : Int) =
        1 + 1 →
      (resolvePage sampleStore3 none 1).pagination.hasMore = true ∧
      (resolvePage sampleStore3 none 1).posts =
        ((mongoLimit 2 ((sortPosts sampleStore3).filter (matchesQuery none))).take
          (1 : Int).toNat).map transformPost ∧
      ∃ plast,
        ((mongoLimit 2 ((sortPosts sampleStore3).filter (matchesQuery none))).take
          (1 : Int).toNat).getLast? = some plast ∧
        (resolvePage sampleStore3 none 1).pagination.nextCursor =
          some (encodeCursor plast.createdAt plast.id)) :=
  claim_C3_overfetch_truncate sampleStore3 none 1
    (mongoLimit 2 ((sortPosts sampleStore3).filter (matchesQuery none))) (by decide) rfl

/-- Witness for C4 at two concrete valid positions. -/
theorem claim_C4_witness :
    decodeCursor (encodeCursor ⟨2024, 1, 15, 12, 30, 5, 0⟩ (sampleOid 7)) =
      Except.ok (⟨2024, 1, 15, 12, 30, 5, 0⟩, sampleOid 7) ∧
    (encodeCursor ⟨2024, 1, 15, 12, 30, 5, 0⟩ (sampleOid 7) =
        encodeCursor ⟨2023, 6, 1, 0, 0, 0, 999⟩ (sampleOid 8) →
      (⟨2024, 1, 15, 12, 30, 5, 0⟩ : DateC) = ⟨2023, 6, 1, 0, 0, 0, 999⟩ ∧
        sampleOid 7 = sampleOid 8) :=
  claim_C4_roundtrip ⟨2024, 1, 15, 12, 30, 5, 0⟩ ⟨2023, 6, 1, 0, 0, 0, 999⟩
    (sampleOid 7) (sampleOid 8) (by decide) (by decide) (by decide) (by decide)

/-- Witness for C5: the rejection bundle at the empty store, and the concrete
400 response for the separator-free token. -/
theorem claim_C5_witness :
    handleGetPosts [] none (some "aGVsbG8=") =
      GetPostsResult.badRequest "Invalid cursor" "Malformed cursor" :=
  (claim_C5_rejection [] none).2.2.2.2.2 "aGVsbG8=" "Malformed cursor"
    (by decide) (by rfl)

/-- Witness for C6 (amended) at the parsed limit 7. -/
theorem claim_C6_witness :
    effectiveLimit (some "7") = min 7 50 ∧
    1 ≤ effectiveLimit (some "7") ∧ effectiveLimit (some "7") ≤ 50 :=
  ⟨(claim_C6_amended (some "7") 7).2.2.1 (by rfl) (by decide),
    ((claim_C6_amended (some "7") 7).2.2.2.1 (by rfl) (by decide)).1,
    ((claim_C6_amended (some "7") 7).2.2.2.1 (by rfl) (by decide)).2⟩

/-- Witness for C7: the 3-post equal-timestamp sample store. -/
theorem claim_C7_witness :
    ∃ r1 r2 r3 t1 t2,
      handleGetPosts sampleStore3 (some "1") none = GetPostsResult.ok r1 ∧
      r1.pagination.nextCursor = some t1 ∧
      handleGetPosts sampleStore3 (some "1") (some t1) = GetPostsResult.ok r2 ∧
      r2.pagination.nextCursor = some t2 ∧
      handleGetPosts sampleStore3 (some "1") (some t2) = GetPostsResult.ok r3 ∧
      r1.posts.length = 1 ∧ r2.posts.length = 1 ∧ r3.posts.length = 1 ∧
      (r1.posts ++ r2.posts ++ r3.posts).Pairwise
        (fun a b => oidLtB b.id a.id = true) ∧
      (r1.posts ++ r2.posts ++ r3.posts).Perm (sampleStore3.map transformPost) :=
  claim_C7_tie_handling sampleStore3 ⟨2024, 1, 15, 12, 30, 0, 0⟩ (by decide) (by decide)
    (by decide) (by decide) (by decide) (by decide)

/-- Witness for C8: two one-post stores that differ only in the liker-id set. -/
theorem claim_C8_witness :
    handleGetPosts [{ samplePost 0 with likesUserIds := ["u1", "u2"] }] none none =
      handleGetPosts [{ samplePost 0 with likesUserIds := ["u9"] }] none none ∧
    (∀ r, handleGetPosts [{ samplePost 0 with likesUserIds := ["u1", "u2"] }] none none =
        GetPostsResult.ok r →
      ∀ pp ∈ r.posts, ∃ q ∈ [{ samplePost 0 with likesUserIds := ["u1", "u2"] }],
        pp = transformPost q) :=
  claim_C8_privacy_projection [{ samplePost 0 with likesUserIds := ["u1", "u2"] }]
    [{ samplePost 0 with likesUserIds := ["u9"] }] none none (by decide)

/-- Witness for C9 (amended) at the 3-post sample store with limit 2. -/
theorem claim_C9_witness :
    (resolvePage sampleStore3 none (effectiveLimit (some "2"))).posts.length ≤
      (effectiveLimit (some "2")).toNat ∧
    ((resolvePage sampleStore3 none (effectiveLimit (some "2"))).pagination.hasMore = true ↔
      (resolvePage sampleStore3 none (effectiveLimit (some "2"))).posts.length <
        ((sortPosts sampleStore3).filter (matchesQuery none)).length) ∧
    (resolvePage sampleStore3 none (effectiveLimit (some "2"))).pagination.count =
      (resolvePage sampleStore3 none (effectiveLimit (some "2"))).posts.length ∧
    (resolvePage sampleStore3 none (effectiveLimit (some "2"))).pagination.limit =
      effectiveLimit (some "2") :=
  claim_C9_amended sampleStore3 (some "2") none none
    (resolvePage sampleStore3 none (effectiveLimit (some "2"))) (by rfl) (by rfl) (by decide)

/-- Witness for C10 at the 3-post sample store with limit 2. -/
theorem claim_C10_witness :
    ((resolvePage sampleStore3 none (effectiveLimit (some "2"))).pagination.nextCursor.isSome =
        true ↔
      (resolvePage sampleStore3 none (effectiveLimit (some "2"))).pagination.hasMore = true) :=
  claim_C10_cursor_iff_more sampleStore3 (some "2") none
    (resolvePage sampleStore3 none (effectiveLimit (some "2"))) (by rfl) (by decide)

end CursorPagination
